import Mathlib

/-!
Verification development for the xinwennl-rss ingestion pipeline
(`src/xinwennl_rss.py`).

The Python program is shallowly embedded as executable Lean definitions:

* External effects are explicit parameters:
  - the Google-translate HTTP call (`requests.post` + response decoding)
    becomes a function `tr : String → ApiOutcome` describing, for each
    query text, how the call turns out;
  - `feedparser.parse` for each configured source becomes an
    `Except PyExc (List RawEntry)` (either the parsed entries, or the
    exception the fetch/parse raised);
  - `BeautifulSoup(...).get_text(strip=True)` becomes a parameter
    `stripHtml : String → String`;
  - `datetime.now(timezone.utc)` becomes a parameter `now : DateTime`.
* Python exceptions are modelled with `Except PyExc`: code that may raise
  returns `.error e`; `try/except` clauses are explicit matches that
  re-raise exactly the exception classes the source does not catch.
* `feedparser` entries (`entry.get(...)` / `hasattr`) are modelled by
  `RawEntry`, a record of optional fields.
* Timestamps are records of naturals (`DateTime`); `datetime.isoformat()`
  on a UTC datetime is reimplemented character by character
  (`DateTime.isoformat`), including the `.%06d` microsecond part that
  `datetime.now` produces and constructed `datetime(*t[:6])` values lack.
* `list.sort(key=lambda x: x['pub_date'], reverse=True)` is a stable sort
  by the raw `pub_date` string, descending.  Python's sort is stable, and
  a stable sort w.r.t. a total preorder is unique, so it is embedded as
  `List.insertionSort` with the relation `pubGe` (Mathlib's insertion
  sort is stable in exactly this sense).
-/

/-- Python exception classes relevant to `xinwennl_rss.py`.
`requestError` covers `requests.RequestException` (connection errors,
timeouts, `raise_for_status` on non-2xx, and `requests` JSON decoding
errors, which subclass it); `keyError`, `valueError`, `indexError` are the
builtin exceptions of those names. -/
inductive PyExc where
  | requestError
  | keyError
  | valueError
  | indexError
deriving DecidableEq

/-- Outcome of one `requests.post` to the translation API followed by
decoding `result['data']['translations'][0]['translatedText']`:
either the translated text, or the exception the attempt raises.
`raiseIndex` is the outcome for a 2xx response whose JSON decodes but
whose `translations` list is empty, so that the `[0]` subscript raises
`IndexError`. -/
inductive ApiOutcome where
  | success (s : String)
  | raiseRequest
  | raiseKey
  | raiseIndex
deriving DecidableEq

/-- A UTC wall-clock instant, mirroring `datetime` with
`tzinfo=timezone.utc`: six calendar fields plus microseconds. -/
structure DateTime where
  year : Nat
  month : Nat
  day : Nat
  hour : Nat
  minute : Nat
  second : Nat
  micro : Nat := 0
deriving DecidableEq

/-- A `feedparser`-style timestamp field (`published_parsed` /
`updated_parsed`): `absent` when the attribute is missing or falsy
(`None`), `valid d` when `datetime(*t[:6], tzinfo=timezone.utc)`
succeeds and yields `d`, `invalid` when that constructor raises
(`ValueError`/`TypeError`/`OverflowError`). -/
inductive ParsedField where
  | absent
  | valid (d : DateTime)
  | invalid
deriving DecidableEq

/-- The ranges within which the Python `datetime` constructor succeeds
(so any `ParsedField.valid` value, and any real wall clock, satisfies
this; `day ≤ 31` over-approximates the per-month bound, which is all the
lexicographic results below need). -/
def DateTime.InRange (d : DateTime) : Prop :=
  1 ≤ d.year ∧ d.year ≤ 9999 ∧ 1 ≤ d.month ∧ d.month ≤ 12 ∧
    1 ≤ d.day ∧ d.day ≤ 31 ∧ d.hour ≤ 23 ∧ d.minute ≤ 59 ∧
    d.second ≤ 59 ∧ d.micro ≤ 999999

instance (d : DateTime) : Decidable d.InRange := by
  unfold DateTime.InRange; infer_instance

/-- Zero-padded fixed-width decimal rendering, most significant digit
first: `padDec k n` is `n` printed with exactly `k` digits (as Python's
zero-padded formatting does for in-range values, e.g. `%04d`/`%02d`). -/
def padDec : Nat → Nat → List Char
  | 0, _ => []
  | k + 1, n => Nat.digitChar (n / 10 ^ k) :: padDec k (n % 10 ^ k)

/-- The character list of `datetime.isoformat()` for a UTC datetime:
`YYYY-MM-DDTHH:MM:SS[.ffffff]+00:00`, the fractional part present
exactly when `micro ≠ 0`. -/
def DateTime.isoChars (d : DateTime) : List Char :=
  padDec 4 d.year ++ '-' :: padDec 2 d.month ++ '-' :: padDec 2 d.day ++
    'T' :: padDec 2 d.hour ++ ':' :: padDec 2 d.minute ++
      ':' :: padDec 2 d.second ++
        (if d.micro = 0 then [] else '.' :: padDec 6 d.micro) ++
          [ '+', '0', '0', ':', '0', '0' ]

/-- `pub_date.isoformat()` as a string (the value stored in the
`pub_date` field of an `Article`). -/
def DateTime.isoformat (d : DateTime) : String :=
  ⟨d.isoChars⟩

/-- Strict chronological order on the six calendar fields
(microseconds are compared last). -/
def DateTime.chronoLt (a b : DateTime) : Prop :=
  a.year < b.year ∨ (a.year = b.year ∧
    (a.month < b.month ∨ (a.month = b.month ∧
      (a.day < b.day ∨ (a.day = b.day ∧
        (a.hour < b.hour ∨ (a.hour = b.hour ∧
          (a.minute < b.minute ∨ (a.minute = b.minute ∧
            (a.second < b.second ∨ (a.second = b.second ∧
              a.micro < b.micro)))))))))))

/-- Chronological `≤`: strictly earlier, or the same instant. -/
def DateTime.chronoLe (a b : DateTime) : Prop :=
  a.chronoLt b ∨
    (a.year = b.year ∧ a.month = b.month ∧ a.day = b.day ∧
      a.hour = b.hour ∧ a.minute = b.minute ∧ a.second = b.second ∧
        a.micro = b.micro)

/-- The `Article` TypedDict of `xinwennl_rss.py` (all nine fields). -/
structure Article where
  fingerprint : String
  title : String
  title_zh : String
  description : String
  description_zh : String
  link : String
  translate_link : String
  pub_date : String
  source_website : String
deriving DecidableEq

/-- A raw `feedparser` entry as the script accesses it: each `entry.get`
key as an optional string, plus the two timestamp attributes. -/
structure RawEntry where
  title : Option String := none
  summary : Option String := none
  description : Option String := none
  guid : Option String := none
  id : Option String := none
  link : Option String := none
  published_parsed : ParsedField := .absent
  updated_parsed : ParsedField := .absent
deriving DecidableEq

/-- Python's `str.strip()`: remove leading and trailing whitespace
(modelled over the ASCII whitespace of `Char.isWhitespace`). -/
def pyStrip (s : String) : String :=
  ⟨((s.data.dropWhile Char.isWhitespace).reverse.dropWhile
      Char.isWhitespace).reverse⟩

/-- Python's `x or y` for an optional string `x` (as in
`entry.get('guid') or ...`): the left value when it is present and
non-empty (truthy), otherwise the right value. -/
def pyOrStr (a : Option String) (b : String) : String :=
  match a with
  | some s => if s = "" then b else s
  | none => b

/-- Unreserved characters of `urllib.parse.quote`'s always-safe set
(letters, digits, `_`, `.`, `-`, `~`); everything else is
percent-encoded when `safe=''`. -/
def quoteSafe (c : Char) : Bool :=
  c.isAlphanum || c = '_' || c = '.' || c = '-' || c = '~'

/-- Uppercase hexadecimal digit, as `urllib.parse.quote` emits. -/
def hexDigitUpper (n : Nat) : Char :=
  if n < 10 then Nat.digitChar n else Char.ofNat (55 + n)

/-- The UTF-8 encoding of one code point, as byte values. -/
def utf8Bytes (c : Char) : List Nat :=
  let n := c.toNat
  if n < 128 then [n]
  else if n < 2048 then [192 + n / 64, 128 + n % 64]
  else if n < 65536 then
    [224 + n / 4096, 128 + n / 64 % 64, 128 + n % 64]
  else
    [240 + n / 262144, 128 + n / 4096 % 64, 128 + n / 64 % 64, 128 + n % 64]

/-- `urllib.parse.quote(s, safe='')`: UTF-8 encode, keep unreserved
ASCII bytes, percent-encode every other byte with uppercase hex. -/
def urlQuote (s : String) : String :=
  ⟨((s.data.map utf8Bytes).flatten.map fun n =>
      if n < 128 && quoteSafe (Char.ofNat n) then [Char.ofNat n]
      else ['%', hexDigitUpper (n / 16), hexDigitUpper (n % 16)]).flatten⟩

instance {ε α : Type} [DecidableEq ε] [DecidableEq α] :
    DecidableEq (Except ε α) := fun x y =>
  match x, y with
  | .error a, .error b =>
    if h : a = b then .isTrue (congrArg Except.error h)
    else .isFalse fun hc => h (Except.error.inj hc)
  | .ok a, .ok b =>
    if h : a = b then .isTrue (congrArg Except.ok h)
    else .isFalse fun hc => h (Except.ok.inj hc)
  | .error _, .ok _ => .isFalse fun hc => Except.noConfusion hc
  | .ok _, .error _ => .isFalse fun hc => Except.noConfusion hc

/-- `translate_text(text, api_key)` (lines 43-76).  Returns the resulting
string paired with whether the HTTP request was issued.  Whitespace-only
input returns unchanged with no request.  The `except` clause catches
exactly `requests.RequestException` and `KeyError` (returning the
original text); any other exception of the attempt — e.g. the
`IndexError` from `['translations'][0]` on an empty list — propagates. -/
def translate_text (tr : String → ApiOutcome) (text : String) :
    Except PyExc (String × Bool) :=
  if pyStrip text = "" then .ok (text, false)
  else
    match tr text with
    | .success s => .ok (s, true)
    | .raiseRequest => .ok (text, true)
    | .raiseKey => .ok (text, true)
    | .raiseIndex => .error .indexError

/-- Line 103: `entry.get('guid') or entry.get('id') or
entry.get('link', '')`. -/
def fingerprintOf (e : RawEntry) : String :=
  pyOrStr e.guid (pyOrStr e.id (e.link.getD ""))

/-- Lines 125-136: start from `now`; if `published_parsed` is present and
truthy, try it (a raising constructor is swallowed and, because the
`elif` is then skipped, `updated_parsed` is not consulted); otherwise
try `updated_parsed` the same way. -/
def parsePubDate (now : DateTime) (pub upd : ParsedField) : DateTime :=
  match pub with
  | .valid d => d
  | .invalid => now
  | .absent =>
    match upd with
    | .valid d => d
    | .invalid => now
    | .absent => now

/-- `process_feed_entry(entry, source, api_key, existing_fingerprints)`
(lines 79-148).  Returns the optional `Article` paired with the number
of `translate_text` invocations made (0, 1 or 2); `.error` when an
uncaught exception escapes (only possible from `translate_text`).
`existing_fingerprints` is the Python set, modelled as the list of its
elements with membership lookup. -/
def process_feed_entry (tr : String → ApiOutcome) (now : DateTime)
    (stripHtml : String → String) (source : String)
    (existing_fingerprints : List String) (entry : RawEntry) :
    Except PyExc (Option Article × Nat) :=
  let title := pyStrip (entry.title.getD "")
  if title = "" then .ok (none, 0)
  else
    let descRaw := pyOrStr entry.summary (entry.description.getD "")
    let description := if descRaw = "" then descRaw else stripHtml descRaw
    let article_fingerprint := fingerprintOf entry
    let original_link := entry.link.getD ""
    if article_fingerprint ∈ existing_fingerprints then .ok (none, 0)
    else
      match translate_text tr title with
      | .error e => .error e
      | .ok (title_zh, _) =>
        match
          if description = "" then Except.ok (("", 0) : String × Nat)
          else (translate_text tr description).map fun p => (p.1, 1) with
        | .error e => .error e
        | .ok (description_zh, n) =>
          let translate_link :=
            "https://translate.google.com/translate?sl=en&tl=zh&u=" ++
              urlQuote original_link
          let pub_date :=
            parsePubDate now entry.published_parsed entry.updated_parsed
          .ok (some {
            fingerprint := article_fingerprint
            title := title
            title_zh := title_zh
            description := description
            description_zh := description_zh
            link := original_link
            translate_link := translate_link
            pub_date := pub_date.isoformat
            source_website := source }, 1 + n)

/-- The exception classes caught by `fetch_single_feed`'s `except`
clause (line 175): `requests.RequestException, ValueError, KeyError`. -/
def caughtByFetch (e : PyExc) : Bool :=
  match e with
  | .requestError => true
  | .valueError => true
  | .keyError => true
  | .indexError => false

/-- The `for entry in feed.entries` loop of `fetch_single_feed`
(lines 170-173), inside its `try`: appends each produced article; an
exception raised while processing an entry discards that entry's and
all later articles, is caught if `caughtByFetch`, and otherwise
propagates (discarding the whole local `articles` list). -/
def processEntries (tr : String → ApiOutcome) (now : DateTime)
    (stripHtml : String → String) (source : String)
    (existing_fingerprints : List String) :
    List RawEntry → Except PyExc (List Article)
  | [] => .ok []
  | e :: es =>
    match process_feed_entry tr now stripHtml source existing_fingerprints e with
    | .error ex => if caughtByFetch ex then .ok [] else .error ex
    | .ok (none, _) => processEntries tr now stripHtml source existing_fingerprints es
    | .ok (some a, _) =>
      (processEntries tr now stripHtml source existing_fingerprints es).map
        fun rest => a :: rest

/-- `fetch_single_feed(feed_url, source, api_key, existing_fingerprints)`
(lines 151-178).  The network fetch + parse (`feedparser.parse`) is the
external input `parsed`: either the entry list or the exception it
raised.  A raised exception in `caughtByFetch` yields the articles
collected so far (`[]` when the parse itself failed). -/
def fetch_single_feed (tr : String → ApiOutcome) (now : DateTime)
    (stripHtml : String → String) (source : String)
    (existing_fingerprints : List String)
    (parsed : Except PyExc (List RawEntry)) : Except PyExc (List Article) :=
  match parsed with
  | .error ex => if caughtByFetch ex then .ok [] else .error ex
  | .ok entries => processEntries tr now stripHtml source existing_fingerprints entries

/-- One configured source, as the run observes it: what
`feedparser.parse` returned for its URL, and its display name. -/
abbrev FeedResult := Except PyExc (List RawEntry) × String

/-- The fetch loop of `fetch_rss_feeds` (lines 205-208): concatenate the
new articles of every configured source, in order. -/
def collect_new (tr : String → ApiOutcome) (now : DateTime)
    (stripHtml : String → String) (existing_fingerprints : List String) :
    List FeedResult → Except PyExc (List Article)
  | [] => .ok []
  | (parsed, source) :: fs =>
    match fetch_single_feed tr now stripHtml source existing_fingerprints parsed with
    | .error ex => .error ex
    | .ok arts =>
      match collect_new tr now stripHtml existing_fingerprints fs with
      | .error ex => .error ex
      | .ok rest => .ok (arts ++ rest)

/-- Line 202: the set of existing fingerprints (every `Article` value
carries its `fingerprint` field, so the `.get` fallback to `link` never
fires for records of this shape). -/
def fpList (l : List Article) : List String :=
  l.map fun a => a.fingerprint

/-- Lexicographic (code-point) `≤` on character lists: exactly how
Python compares `str` values. -/
def charsLe : List Char → List Char → Bool
  | [], _ => true
  | _ :: _, [] => false
  | a :: as, b :: bs => if a < b then true else if b < a then false else charsLe as bs

/-- Python's `s <= t` on strings. -/
def strLe (a b : String) : Prop :=
  charsLe a.data b.data = true

instance : DecidableRel strLe := fun a b =>
  inferInstanceAs (Decidable (charsLe a.data b.data = true))

/-- The sort relation of line 214: `a` may precede `b` iff
`a.pub_date >= b.pub_date` as raw strings (descending key order).
Python's `list.sort(key=..., reverse=True)` is stable. -/
def pubGe (a b : Article) : Prop :=
  strLe b.pub_date a.pub_date

instance : DecidableRel pubGe := fun a b =>
  inferInstanceAs (Decidable (strLe b.pub_date a.pub_date))

instance : IsTotal Article pubGe where
  total a b := by
    have key : ∀ xs ys : List Char,
        charsLe xs ys = true ∨ charsLe ys xs = true := by
      intro xs
      induction xs with
      | nil => intro ys; left; rfl
      | cons x xt ih =>
        intro ys
        cases ys with
        | nil => right; rfl
        | cons y yt =>
          rcases lt_trichotomy x y with h | h | h
          · left; simp [charsLe, h]
          · subst h; simpa [charsLe] using ih yt
          · right; simp [charsLe, h]
    exact key b.pub_date.data a.pub_date.data

instance : IsTrans Article pubGe where
  trans a b c h1 h2 := by
    have key : ∀ xs ys zs : List Char, charsLe xs ys = true →
        charsLe ys zs = true → charsLe xs zs = true := by
      intro xs
      induction xs with
      | nil => intro ys zs _ _; rfl
      | cons x xt ih =>
        intro ys zs h3 h4
        cases ys with
        | nil => simp [charsLe] at h3
        | cons y yt =>
          cases zs with
          | nil => simp [charsLe] at h4
          | cons z zt =>
            simp only [charsLe] at h3 h4 ⊢
            by_cases hxy : x < y
            · by_cases hyz : y < z
              · simp [lt_trans hxy hyz]
              · by_cases hzy : z < y
                · simp [hyz, hzy] at h4
                · have h5 : y = z := le_antisymm (not_lt.mp hzy) (not_lt.mp hyz)
                  subst h5; simp [hxy]
            · by_cases hyx : y < x
              · simp [hxy, hyx] at h3
              · have h5 : x = y := le_antisymm (not_lt.mp hyx) (not_lt.mp hxy)
                subst h5
                simp only [if_neg (lt_irrefl x)] at h3
                by_cases hxz : x < z
                · simp [hxz]
                · by_cases hzx : z < x
                  · simp [hxz, hzx] at h4
                  · simp only [if_neg hxz, if_neg hzx] at h4 ⊢
                    exact ih yt zt h3 h4
    exact key c.pub_date.data b.pub_date.data a.pub_date.data h2 h1

/-- `fetch_rss_feeds(api_key, existing_articles)` (lines 181-222) given
the observed per-source parse results: default `None` to `[]`, build the
existing-fingerprint set, collect the new articles from every source,
concatenate existing and new, stable-sort by `pub_date` descending, and
truncate to the newest 77 when longer. -/
def fetch_rss_feeds (tr : String → ApiOutcome) (now : DateTime)
    (stripHtml : String → String) (existing_articles : Option (List Article))
    (feeds : List FeedResult) : Except PyExc (List Article) :=
  let existing := existing_articles.getD []
  let existing_fingerprints := fpList existing
  match collect_new tr now stripHtml existing_fingerprints feeds with
  | .error ex => .error ex
  | .ok new_articles =>
    let all_articles := existing ++ new_articles
    let sorted := List.insertionSort pubGe all_articles
    .ok (if sorted.length > 77 then sorted.take 77 else sorted)

/-- A translator whose HTTP call always fails with a caught
`requests.RequestException` (the fail-soft path: original text kept). -/
def trFail : String → ApiOutcome := fun _ => .raiseRequest

/-- A translator whose 2xx response carries an empty `translations`
list, so decoding raises `IndexError`. -/
def trBoom : String → ApiOutcome := fun _ => .raiseIndex

/-- A fixed run clock, 2025-01-10 00:00:00 UTC. -/
def now0 : DateTime := ⟨2025, 1, 10, 0, 0, 0, 0⟩

/-- Entry with guid `G` and a link, published 2025-01-02. -/
def entryA : RawEntry :=
  { title := some "A"
    guid := some "G"
    link := some "http://x/1"
    published_parsed := .valid ⟨2025, 1, 2, 0, 0, 0, 0⟩ }

/-- A second entry carrying the same guid `G`, published 2025-01-03. -/
def entryB : RawEntry :=
  { title := some "B"
    guid := some "G"
    published_parsed := .valid ⟨2025, 1, 3, 0, 0, 0, 0⟩ }

/-- An entry with only a title: no guid, no id, no link, no
timestamps. -/
def entryBare : RawEntry := { title := some "T" }

/-- Feed entry republishing guid `G` with timestamp 2025-01-03. -/
def entryG : RawEntry :=
  { title := some "g"
    guid := some "G"
    published_parsed := .valid ⟨2025, 1, 3, 0, 0, 0, 0⟩ }

/-- Fresh feed entry with guid `H`, timestamp 2025-01-02. -/
def entryH : RawEntry :=
  { title := some "h"
    guid := some "H"
    published_parsed := .valid ⟨2025, 1, 2, 0, 0, 0, 0⟩ }

/-- The article `process_feed_entry` builds from `entryA` under
`trFail` (translation fails soft, so both text fields pass through). -/
def artA : Article :=
  ⟨"G", "A", "A", "", "", "http://x/1",
    "https://translate.google.com/translate?sl=en&tl=zh&u=http%3A%2F%2Fx%2F1",
    "2025-01-02T00:00:00+00:00", "S"⟩

/-- The article built from `entryBare` under `trFail` at `now0`: note
the empty fingerprint and the wall-clock `pub_date`. -/
def artBare : Article :=
  ⟨"", "T", "T", "", "", "",
    "https://translate.google.com/translate?sl=en&tl=zh&u=",
    "2025-01-10T00:00:00+00:00", "S"⟩

/-- The article built from `entryH` under `trFail` at `now0`. -/
def artH : Article :=
  ⟨"H", "h", "h", "", "", "",
    "https://translate.google.com/translate?sl=en&tl=zh&u=",
    "2025-01-02T00:00:00+00:00", "S"⟩

/-- The article built from `entryG` under `trFail` at `now0`. -/
def artG : Article :=
  ⟨"G", "g", "g", "", "", "",
    "https://translate.google.com/translate?sl=en&tl=zh&u=",
    "2025-01-03T00:00:00+00:00", "S"⟩

/-- A prior-state filler article dated 2025-01-02. -/
def artX : Article :=
  ⟨"X", "x", "x", "", "", "", "", "2025-01-02T00:00:00+00:00", "S"⟩

/-- The oldest prior-state article, fingerprint `G`, 2025-01-01. -/
def artG0 : Article :=
  ⟨"G", "gold", "gold", "", "", "", "", "2025-01-01T00:00:00+00:00", "S"⟩

/-- Prior state of 77 articles: 76 fillers plus the old `G` article. -/
def state0 : List Article := List.replicate 76 artX ++ [artG0]

/-- State after the first run on `state0`/`feedsC4`: ingesting `H`
overflows the bound and truncation drops the old `G` article. -/
def state1 : List Article := List.replicate 76 artX ++ [artH]

/-- State after the second run: with `G` gone from state, the feed
entry for `G` is re-ingested as newest, and `H` is truncated away. -/
def state2 : List Article := artG :: List.replicate 76 artX

/-- The one configured source used by the idempotence counterexample. -/
def feedsC4 : List FeedResult := [(Except.ok [entryG, entryH], "S")]

theorem charsLe_refl (l : List Char) : charsLe l l = true := by
  induction l with
  | nil => rfl
  | cons a as ih => simp [charsLe, ih]

/-- Truncation to the newest 77 (lines 217-218) is `take 77` whether or
not the bound was exceeded. -/
theorem truncate77_eq_take (l : List Article) :
    (if l.length > 77 then l.take 77 else l) = l.take 77 := by
  split
  · rfl
  · exact (List.take_of_length_le (by omega)).symm

/-- The only exception `translate_text` can let escape is the
`IndexError` of subscripting an empty `translations` list. -/
theorem translate_text_error {tr : String → ApiOutcome} {t : String}
    {ex : PyExc} (h : translate_text tr t = .error ex) :
    ex = .indexError := by
  unfold translate_text at h
  split at h
  · simp at h
  · split at h <;> simp_all

/-- An entry with an empty (stripped) title, or whose fingerprint is
already known, is skipped with no translation attempted. -/
theorem process_feed_entry_none (tr : String → ApiOutcome) (now : DateTime)
    (stripHtml : String → String) (src : String) (known : List String)
    (e : RawEntry)
    (h : pyStrip (e.title.getD "") = "" ∨ fingerprintOf e ∈ known) :
    process_feed_entry tr now stripHtml src known e = .ok (none, 0) := by
  unfold process_feed_entry
  rcases h with h | h
  · simp [h]
  · by_cases ht : pyStrip (e.title.getD "") = "" <;> simp [ht, h]

/-- Every produced article carries the entry's derived fingerprint, a
fingerprint that was not in the known set, and the `isoformat` of the
parsed (or fallback) publication datetime. -/
theorem process_feed_entry_some {tr : String → ApiOutcome} {now : DateTime}
    {stripHtml : String → String} {src : String} {known : List String}
    {e : RawEntry} {a : Article} {n : Nat}
    (h : process_feed_entry tr now stripHtml src known e = .ok (some a, n)) :
    a.fingerprint = fingerprintOf e ∧ fingerprintOf e ∉ known ∧
      a.pub_date = (parsePubDate now e.published_parsed e.updated_parsed).isoformat := by
  unfold process_feed_entry at h
  dsimp only at h
  split at h
  · simp at h
  · split at h
    · simp at h
    · rename_i hkn
      split at h
      · simp at h
      · split at h
        · simp at h
        · simp only [Except.ok.injEq, Prod.mk.injEq, Option.some.injEq] at h
          refine ⟨?_, hkn, ?_⟩ <;> rw [← h.1]

/-- Mapping over a failed `translate_text` keeps its only possible
exception, the `IndexError`. -/
theorem translate_map_error {tr : String → ApiOutcome} {t : String}
    {ex : PyExc} {f : String × Bool → String × Nat}
    (h : Except.map f (translate_text tr t) = .error ex) :
    ex = .indexError := by
  cases hm : translate_text tr t with
  | error e2 =>
    rw [hm] at h
    simp only [Except.map] at h
    rw [Except.error.inj h] at hm
    exact translate_text_error hm
  | ok p => rw [hm] at h; simp [Except.map] at h

/-- The only exception `process_feed_entry` can raise comes out of
`translate_text`, hence is the `IndexError`. -/
theorem process_feed_entry_error {tr : String → ApiOutcome} {now : DateTime}
    {stripHtml : String → String} {src : String} {known : List String}
    {e : RawEntry} {ex : PyExc}
    (h : process_feed_entry tr now stripHtml src known e = .error ex) :
    ex = .indexError := by
  unfold process_feed_entry at h
  dsimp only at h
  split at h
  · simp at h
  · split at h
    · simp at h
    · split at h
      · rename_i heq
        simp only [Except.error.injEq] at h
        exact (h ▸ translate_text_error heq : ex = .indexError)
      · split at h
        · rename_i heq
          simp only [Except.error.injEq] at h
          subst h
          split at heq <;>
            first
              | simp at heq
              | exact translate_map_error heq
              | (split at heq <;>
                  first
                    | simp at heq
                    | exact translate_map_error heq)
        · simp at h

/-- A skipped entry (`.ok (none, _)`) was skipped for one of the two
reasons in the code: blank title, or already-known fingerprint. -/
theorem process_feed_entry_none_inv {tr : String → ApiOutcome}
    {now : DateTime} {stripHtml : String → String} {src : String}
    {known : List String} {e : RawEntry} {k : Nat}
    (h : process_feed_entry tr now stripHtml src known e = .ok (none, k)) :
    pyStrip (e.title.getD "") = "" ∨ fingerprintOf e ∈ known := by
  unfold process_feed_entry at h
  dsimp only at h
  split at h
  · rename_i ht; exact Or.inl ht
  · split at h
    · rename_i hm; exact Or.inr hm
    · split at h
      · simp at h
      · split at h
        · simp at h
        · simp at h

/-- Every article the entry loop emits has a fingerprint outside the
known set. -/
theorem processEntries_fp_not_known {tr : String → ApiOutcome}
    {now : DateTime} {stripHtml : String → String} {src : String}
    {known : List String} {es : List RawEntry} {arts : List Article}
    (h : processEntries tr now stripHtml src known es = .ok arts) :
    ∀ a ∈ arts, a.fingerprint ∉ known := by
  induction es generalizing arts with
  | nil =>
    simp only [processEntries, Except.ok.injEq] at h
    subst h; intro a ha; cases ha
  | cons e es ih =>
    simp only [processEntries] at h
    split at h
    · rename_i hp
      rw [process_feed_entry_error hp] at h
      simp [caughtByFetch] at h
    · exact ih h
    · rename_i a k hp
      cases hrest : processEntries tr now stripHtml src known es with
      | error ex => rw [hrest] at h; simp [Except.map] at h
      | ok rest =>
        rw [hrest] at h
        simp only [Except.map, Except.ok.injEq] at h
        subst h
        intro x hx
        rcases List.mem_cons.mp hx with hx | hx
        · subst hx
          rw [(process_feed_entry_some hp).1]
          exact (process_feed_entry_some hp).2.1
        · exact ih hrest x hx

/-- When the loop completes normally, every entry was either rejected
(blank title), already known, or contributed its fingerprint to the
produced articles. -/
theorem processEntries_covers {tr : String → ApiOutcome} {now : DateTime}
    {stripHtml : String → String} {src : String} {known : List String}
    {es : List RawEntry} {arts : List Article}
    (h : processEntries tr now stripHtml src known es = .ok arts) :
    ∀ e ∈ es, pyStrip (e.title.getD "") = "" ∨ fingerprintOf e ∈ known ∨
      fingerprintOf e ∈ arts.map fun a => a.fingerprint := by
  induction es generalizing arts with
  | nil => intro e he; cases he
  | cons e0 es ih =>
    simp only [processEntries] at h
    split at h
    · rename_i hp
      rw [process_feed_entry_error hp] at h
      simp [caughtByFetch] at h
    · rename_i k hp
      intro e he
      rcases List.mem_cons.mp he with he | he
      · subst he
        rcases process_feed_entry_none_inv hp with ht | hm
        · exact Or.inl ht
        · exact Or.inr (Or.inl hm)
      · exact ih h e he
    · rename_i a k hp
      cases hrest : processEntries tr now stripHtml src known es with
      | error ex => rw [hrest] at h; simp [Except.map] at h
      | ok rest =>
        rw [hrest] at h
        simp only [Except.map, Except.ok.injEq] at h
        subst h
        intro e he
        rcases List.mem_cons.mp he with he | he
        · subst he
          refine Or.inr (Or.inr ?_)
          rw [← (process_feed_entry_some hp).1]
          exact List.mem_map_of_mem _ (List.mem_cons_self a rest)
        · rcases ih hrest e he with ht | hm | hin
          · exact Or.inl ht
          · exact Or.inr (Or.inl hm)
          · refine Or.inr (Or.inr ?_)
            simp only [List.map_cons, List.mem_cons]
            exact Or.inr hin

/-- If every entry would be rejected or is already known, the loop emits
nothing (and cannot raise). -/
theorem processEntries_none {tr : String → ApiOutcome} {now : DateTime}
    {stripHtml : String → String} {src : String} {known : List String}
    {es : List RawEntry}
    (h : ∀ e ∈ es, pyStrip (e.title.getD "") = "" ∨ fingerprintOf e ∈ known) :
    processEntries tr now stripHtml src known es = .ok [] := by
  induction es with
  | nil => rfl
  | cons e0 es ih =>
    simp only [processEntries]
    rw [process_feed_entry_none tr now stripHtml src known e0
      (h e0 (List.mem_cons_self e0 es))]
    exact ih fun e he => h e (List.mem_cons_of_mem e0 he)

/-- `fetch_single_feed` analogue of `processEntries_fp_not_known`. -/
theorem fetch_single_feed_fp_not_known {tr : String → ApiOutcome}
    {now : DateTime} {stripHtml : String → String} {src : String}
    {known : List String} {parsed : Except PyExc (List RawEntry)}
    {arts : List Article}
    (h : fetch_single_feed tr now stripHtml src known parsed = .ok arts) :
    ∀ a ∈ arts, a.fingerprint ∉ known := by
  unfold fetch_single_feed at h
  cases parsed with
  | error ex =>
    dsimp only at h
    split at h
    · injection h with h2
      subst h2; intro a ha; cases ha
    · simp at h
  | ok entries => exact processEntries_fp_not_known h

/-- `fetch_single_feed` analogue of `processEntries_covers`. -/
theorem fetch_single_feed_covers {tr : String → ApiOutcome}
    {now : DateTime} {stripHtml : String → String} {src : String}
    {known : List String} {entries : List RawEntry} {arts : List Article}
    (h : fetch_single_feed tr now stripHtml src known (.ok entries) = .ok arts) :
    ∀ e ∈ entries, pyStrip (e.title.getD "") = "" ∨ fingerprintOf e ∈ known ∨
      fingerprintOf e ∈ arts.map fun a => a.fingerprint := by
  exact processEntries_covers h

/-- Every article `collect_new` gathers has a fingerprint outside the
known set (the amended core of claim C1). -/
theorem collect_new_fp_not_known {tr : String → ApiOutcome} {now : DateTime}
    {stripHtml : String → String} {known : List String}
    {feeds : List FeedResult} {new1 : List Article}
    (h : collect_new tr now stripHtml known feeds = .ok new1) :
    ∀ a ∈ new1, a.fingerprint ∉ known := by
  induction feeds generalizing new1 with
  | nil =>
    simp only [collect_new, Except.ok.injEq] at h
    subst h; intro a ha; cases ha
  | cons p fs ih =>
    obtain ⟨parsed, src⟩ := p
    simp only [collect_new] at h
    split at h
    · simp at h
    · rename_i arts ha
      split at h
      · simp at h
      · rename_i rest hr
        simp only [Except.ok.injEq] at h
        subst h
        intro a ha2
        rcases List.mem_append.mp ha2 with hm | hm
        · exact fetch_single_feed_fp_not_known ha a hm
        · exact ih hr a hm

/-- If `collect_new` completes, every parse failure among the sources
was of a caught exception class. -/
theorem collect_new_err_caught {tr : String → ApiOutcome} {now : DateTime}
    {stripHtml : String → String} {known : List String}
    {feeds : List FeedResult} {new1 : List Article}
    (h : collect_new tr now stripHtml known feeds = .ok new1) :
    ∀ p ∈ feeds, ∀ ex, p.1 = .error ex → caughtByFetch ex = true := by
  induction feeds generalizing new1 with
  | nil => intro p hp; cases hp
  | cons p fs ih =>
    obtain ⟨parsed, src⟩ := p
    simp only [collect_new] at h
    split at h
    · simp at h
    · rename_i arts ha
      split at h
      · simp at h
      · rename_i rest hr
        intro q hq ex hex
        rcases List.mem_cons.mp hq with hq | hq
        · subst hq
          simp only at hex
          subst hex
          unfold fetch_single_feed at ha
          dsimp only at ha
          by_cases hc : caughtByFetch ex = true
          · exact hc
          · rw [if_neg hc] at ha; simp at ha
        · exact ih hr q hq ex hex

/-- If `collect_new` completes, every entry of every successfully
parsed source is rejected, known, or contributes its fingerprint. -/
theorem collect_new_covers {tr : String → ApiOutcome} {now : DateTime}
    {stripHtml : String → String} {known : List String}
    {feeds : List FeedResult} {new1 : List Article}
    (h : collect_new tr now stripHtml known feeds = .ok new1) :
    ∀ p ∈ feeds, ∀ entries, p.1 = .ok entries → ∀ e ∈ entries,
      pyStrip (e.title.getD "") = "" ∨ fingerprintOf e ∈ known ∨
        fingerprintOf e ∈ new1.map fun a => a.fingerprint := by
  induction feeds generalizing new1 with
  | nil => intro p hp; cases hp
  | cons p fs ih =>
    obtain ⟨parsed, src⟩ := p
    simp only [collect_new] at h
    split at h
    · simp at h
    · rename_i arts ha
      split at h
      · simp at h
      · rename_i rest hr
        simp only [Except.ok.injEq] at h
        subst h
        intro q hq entries hent e he
        rcases List.mem_cons.mp hq with hq | hq
        · subst hq
          simp only at hent
          subst hent
          rcases fetch_single_feed_covers ha e he with ht | hm | hin
          · exact Or.inl ht
          · exact Or.inr (Or.inl hm)
          · refine Or.inr (Or.inr ?_)
            rw [List.map_append]
            exact List.mem_append_left _ hin
        · rcases ih hr q hq entries hent e he with ht | hm | hin
          · exact Or.inl ht
          · exact Or.inr (Or.inl hm)
          · refine Or.inr (Or.inr ?_)
            rw [List.map_append]
            exact List.mem_append_right _ hin

/-- If every source either failed with a caught exception or parsed to
entries that are all rejected-or-known, the run ingests nothing. -/
theorem collect_new_none {tr : String → ApiOutcome} {now : DateTime}
    {stripHtml : String → String} {known : List String}
    {feeds : List FeedResult}
    (herr : ∀ p ∈ feeds, ∀ ex, p.1 = .error ex → caughtByFetch ex = true)
    (hent : ∀ p ∈ feeds, ∀ entries, p.1 = .ok entries → ∀ e ∈ entries,
      pyStrip (e.title.getD "") = "" ∨ fingerprintOf e ∈ known) :
    collect_new tr now stripHtml known feeds = .ok [] := by
  induction feeds with
  | nil => rfl
  | cons p fs ih =>
    obtain ⟨parsed, src⟩ := p
    have hsingle : fetch_single_feed tr now stripHtml src known parsed = .ok [] := by
      cases parsed with
      | error ex =>
        unfold fetch_single_feed
        dsimp only
        rw [if_pos (herr _ (List.mem_cons_self _ _) ex rfl)]
      | ok entries =>
        exact processEntries_none
          (hent _ (List.mem_cons_self _ _) entries rfl)
    simp only [collect_new, hsingle]
    rw [ih (fun q hq => herr q (List.mem_cons_of_mem _ hq))
      (fun q hq => hent q (List.mem_cons_of_mem _ hq))]
    rfl

/-- Unfolding of `fetch_rss_feeds` on a successful run: sort the
concatenation, keep the first 77. -/
theorem fetch_rss_feeds_eq {tr : String → ApiOutcome} {now : DateTime}
    {stripHtml : String → String} {ex : List Article}
    {feeds : List FeedResult} {new1 : List Article}
    (h : collect_new tr now stripHtml (fpList ex) feeds = .ok new1) :
    fetch_rss_feeds tr now stripHtml (some ex) feeds =
      .ok ((List.insertionSort pubGe (ex ++ new1)).take 77) := by
  unfold fetch_rss_feeds
  simp only [Option.getD_some]
  rw [h]
  simp only [truncate77_eq_take]

/-- Splitting `<` on naturals through division by a positive base. -/
theorem nat_lt_split (P n m : Nat) (hP : 0 < P) :
    n < m ↔ (n / P < m / P ∨ (n / P = m / P ∧ n % P < m % P)) := by
  have e1 := Nat.div_add_mod n P
  have e2 := Nat.div_add_mod m P
  have l1 : n % P < P := Nat.mod_lt _ hP
  have l2 : m % P < P := Nat.mod_lt _ hP
  constructor
  · intro h
    rcases Nat.lt_trichotomy (n / P) (m / P) with h1 | h1 | h1
    · exact Or.inl h1
    · refine Or.inr ⟨h1, ?_⟩
      have h2 : P * (n / P) = P * (m / P) := by rw [h1]
      omega
    · exfalso
      have h2 := Nat.mul_le_mul_left P (Nat.succ_le_of_lt h1)
      rw [Nat.mul_succ] at h2
      omega
  · intro h
    rcases h with h1 | ⟨h1, h2⟩
    · have h3 := Nat.mul_le_mul_left P (Nat.succ_le_of_lt h1)
      rw [Nat.mul_succ] at h3
      omega
    · have h3 : P * (n / P) = P * (m / P) := by rw [h1]
      omega

/-- Splitting `=` on naturals through division by a base. -/
theorem nat_eq_split (P n m : Nat) :
    n = m ↔ (n / P = m / P ∧ n % P = m % P) := by
  constructor
  · rintro rfl; exact ⟨rfl, rfl⟩
  · rintro ⟨h1, h2⟩
    have e1 := Nat.div_add_mod n P
    have e2 := Nat.div_add_mod m P
    have h3 : P * (n / P) = P * (m / P) := by rw [h1]
    omega

/-- Decimal digit characters order like their values. -/
theorem digitChar_lt_iff : ∀ a, a < 10 → ∀ b, b < 10 →
    ((Nat.digitChar a < Nat.digitChar b) ↔ a < b) := by decide

/-- Decimal digit characters are distinct for distinct values. -/
theorem digitChar_eq_iff : ∀ a, a < 10 → ∀ b, b < 10 →
    ((Nat.digitChar a = Nat.digitChar b) ↔ a = b) := by decide

/-- Two equal heads never decide a lexicographic comparison. -/
theorem charsLe_cons_same (c : Char) (as bs : List Char) :
    charsLe (c :: as) (c :: bs) = charsLe as bs := by
  simp [charsLe]

/-- Comparing two strings that start with equal-width zero-padded
decimal renderings: the smaller number wins, and equal numbers defer to
the tails.  This is the heart of the pub-date-as-string ordering. -/
theorem charsLe_padDec_append (k : Nat) : ∀ (n m : Nat) (as bs : List Char),
    n < 10 ^ k → m < 10 ^ k →
    (charsLe (padDec k n ++ as) (padDec k m ++ bs) = true ↔
      (n < m ∨ (n = m ∧ charsLe as bs = true))) := by
  induction k with
  | zero =>
    intro n m as bs hn hm
    have hn0 : n = 0 := by simpa using hn
    have hm0 : m = 0 := by simpa using hm
    subst hn0; subst hm0
    simp [padDec]
  | succ k ih =>
    intro n m as bs hn hm
    have hP : 0 < 10 ^ k := pow_pos (by norm_num) k
    rw [pow_succ] at hn hm
    have hq1 : n / 10 ^ k < 10 := Nat.div_lt_of_lt_mul (by omega)
    have hq2 : m / 10 ^ k < 10 := Nat.div_lt_of_lt_mul (by omega)
    have hr1 : n % 10 ^ k < 10 ^ k := Nat.mod_lt _ hP
    have hr2 : m % 10 ^ k < 10 ^ k := Nat.mod_lt _ hP
    simp only [padDec, List.cons_append, charsLe]
    by_cases h1 : Nat.digitChar (n / 10 ^ k) < Nat.digitChar (m / 10 ^ k)
    · have hq : n / 10 ^ k < m / 10 ^ k := (digitChar_lt_iff _ hq1 _ hq2).mp h1
      simp only [if_pos h1, true_iff]
      exact Or.inl ((nat_lt_split (10 ^ k) n m hP).mpr (Or.inl hq))
    · by_cases h2 : Nat.digitChar (m / 10 ^ k) < Nat.digitChar (n / 10 ^ k)
      · have hq : m / 10 ^ k < n / 10 ^ k := (digitChar_lt_iff _ hq2 _ hq1).mp h2
        simp only [if_neg h1, if_pos h2]
        constructor
        · intro hfalse; simp at hfalse
        · intro hr
          exfalso
          rcases hr with hlt | ⟨heq, _⟩
          · rcases (nat_lt_split (10 ^ k) n m hP).mp hlt with h3 | ⟨h3, _⟩ <;> omega
          · subst heq; exact absurd hq (lt_irrefl _)
      · have hq : n / 10 ^ k = m / 10 ^ k :=
          (digitChar_eq_iff _ hq1 _ hq2).mp
            (le_antisymm (not_lt.mp h2) (not_lt.mp h1))
        simp only [if_neg h1, if_neg h2, List.append_eq]
        rw [ih (n % 10 ^ k) (m % 10 ^ k) as bs hr1 hr2]
        rw [nat_lt_split (10 ^ k) n m hP, nat_eq_split (10 ^ k) n m]
        rw [hq]
        simp [lt_irrefl]

/-- For in-range datetimes without microseconds (the uniform isoformat
shape `YYYY-MM-DDTHH:MM:SS+00:00`), lexicographic order of the rendered
strings coincides with chronological order. -/
theorem charsLe_microTail (m1 m2 : Nat) (hb1 : m1 ≤ 999999)
    (hb2 : m2 ≤ 999999) :
    (charsLe
        ((if m1 = 0 then [] else '.' :: padDec 6 m1) ++
          [ '+', '0', '0', ':', '0', '0' ])
        ((if m2 = 0 then [] else '.' :: padDec 6 m2) ++
          [ '+', '0', '0', ':', '0', '0' ]) = true) ↔ m1 ≤ m2 := by
  have hp6 : (10 : Nat) ^ 6 = 1000000 := by norm_num
  have hlt : ('+' : Char) < '.' := by decide
  have hnlt : ¬ ('.' : Char) < '+' := by decide
  by_cases hm1 : m1 = 0 <;> by_cases hm2 : m2 = 0
  · rw [if_pos hm1, if_pos hm2]
    simp [charsLe_refl, hm1, hm2]
  · rw [if_pos hm1, if_neg hm2, List.nil_append, List.cons_append]
    simp only [charsLe]
    rw [if_pos hlt]
    simp [hm1]
  · rw [if_neg hm1, if_pos hm2, List.nil_append, List.cons_append]
    simp only [charsLe]
    rw [if_neg hnlt, if_pos hlt]
    simp [hm2, Nat.le_zero, hm1]
  · rw [if_neg hm1, if_neg hm2]
    simp only [List.cons_append]
    rw [charsLe_cons_same,
      charsLe_padDec_append 6 _ _ _ _ (by rw [hp6]; omega) (by rw [hp6]; omega)]
    simp [charsLe_refl]
    omega

theorem isoChars_le_iff {d1 d2 : DateTime} (h1 : d1.InRange)
    (h2 : d2.InRange) :
    (charsLe d1.isoChars d2.isoChars = true ↔ d1.chronoLe d2) := by
  obtain ⟨hy1a, hy1b, hmo1a, hmo1b, hd1a, hd1b, hh1, hmi1, hs1, hmc1⟩ := h1
  obtain ⟨hy2a, hy2b, hmo2a, hmo2b, hd2a, hd2b, hh2, hmi2, hs2, hmc2⟩ := h2
  simp only [DateTime.isoChars, List.append_assoc, List.cons_append,
    List.nil_append]
  rw [charsLe_padDec_append 4 _ _ _ _ (by omega) (by omega),
    charsLe_cons_same,
    charsLe_padDec_append 2 _ _ _ _ (by omega) (by omega),
    charsLe_cons_same,
    charsLe_padDec_append 2 _ _ _ _ (by omega) (by omega),
    charsLe_cons_same,
    charsLe_padDec_append 2 _ _ _ _ (by omega) (by omega),
    charsLe_cons_same,
    charsLe_padDec_append 2 _ _ _ _ (by omega) (by omega),
    charsLe_cons_same,
    charsLe_padDec_append 2 _ _ _ _ (by omega) (by omega),
    charsLe_microTail _ _ hmc1 hmc2]
  simp only [DateTime.chronoLe, DateTime.chronoLt]
  omega

/-- C5 (amended): `translate_text` returns the input unchanged with no
HTTP request when the stripped text is empty, and returns the original
text (fail-soft) when the call fails with the caught exception classes
`requests.RequestException` (network error, timeout, non-2xx status,
JSON-decode failure) or `KeyError` (missing key in the response shape).
The original claim's "any malformed or unexpectedly shaped response
body" is too strong: a shape raising a different exception class
propagates (see the counterexample). -/
theorem claim_C5 : ∀ (tr : String → ApiOutcome) (text : String),
    (pyStrip text = "" → translate_text tr text = .ok (text, false)) ∧
    (pyStrip text ≠ "" → tr text = .raiseRequest →
      translate_text tr text = .ok (text, true)) ∧
    (pyStrip text ≠ "" → tr text = .raiseKey →
      translate_text tr text = .ok (text, true)) := by
  intro tr text
  refine ⟨?_, ?_, ?_⟩
  · intro h1
    unfold translate_text
    rw [if_pos h1]
  · intro h1 h2
    unfold translate_text
    rw [if_neg h1, h2]
  · intro h1 h2
    unfold translate_text
    rw [if_neg h1, h2]

/-- C5 witness: a whitespace-only text is returned with no request; a
failing request returns the original text. -/
theorem claim_C5_witness :
    translate_text trFail " " = .ok (" ", false) ∧
    translate_text trFail "x" = .ok ("x", true) :=
  ⟨(claim_C5 trFail " ").1 (by decide),
    (claim_C5 trFail "x").2.1 (by decide) rfl⟩

/-- C5 counterexample: a 2xx response whose `translations` list is
empty raises `IndexError` out of `translate_text` (only
`RequestException` and `KeyError` are caught), and that exception
aborts the whole run — `fetch_single_feed`'s `except` clause does not
catch `IndexError` either — contradicting "a translation failure never
aborts ingestion". -/
theorem claim_C5_counterexample :
    translate_text trBoom "hello" = .error .indexError ∧
    fetch_rss_feeds trBoom now0 id (some []) [(Except.ok [entryBare], "S")] =
      .error .indexError := by
  exact ⟨by decide, by decide⟩

/-- C6: an entry whose derived fingerprint is already known is skipped
(`.ok (none, _)`) with zero invocations of `translate_text` — the
membership check (line 107) precedes translation (line 113), so a known
entry is never re-translated or field-updated, whatever its other
fields are. -/
theorem claim_C6 : ∀ (tr : String → ApiOutcome) (now : DateTime)
    (stripHtml : String → String) (src : String) (known : List String)
    (e : RawEntry), fingerprintOf e ∈ known →
    process_feed_entry tr now stripHtml src known e = .ok (none, 0) := by
  intro tr now stripHtml src known e h
  exact process_feed_entry_none tr now stripHtml src known e (Or.inr h)

/-- C6 witness: a known entry is skipped even under a translator whose
every call raises — proof that no translation call was made. -/
theorem claim_C6_witness :
    process_feed_entry trBoom now0 id "S" ["G"] entryA = .ok (none, 0) :=
  claim_C6 trBoom now0 id "S" ["G"] entryA (by decide)

/-- C7 (amended): the fingerprint of every produced article follows the
source priority rule guid → id → link (line 103, empty strings being
falsy).  But an entry lacking all three is NOT discarded: it is
ingested with fingerprint `""` (see the counterexample); only blank
titles and known fingerprints cause discarding. -/
theorem claim_C7 : ∀ (tr : String → ApiOutcome) (now : DateTime)
    (stripHtml : String → String) (src : String) (known : List String)
    (e : RawEntry) (a : Article) (n : Nat),
    process_feed_entry tr now stripHtml src known e = .ok (some a, n) →
    a.fingerprint = fingerprintOf e ∧
    fingerprintOf e = pyOrStr e.guid (pyOrStr e.id (e.link.getD "")) := by
  intro tr now stripHtml src known e a n h
  exact ⟨(process_feed_entry_some h).1, rfl⟩

/-- C7 witness: the produced article carries the entry's guid as its
fingerprint. -/
theorem claim_C7_witness :
    artA.fingerprint = fingerprintOf entryA ∧
    fingerprintOf entryA =
      pyOrStr entryA.guid (pyOrStr entryA.id (entryA.link.getD "")) :=
  claim_C7 trFail now0 id "S" [] entryA artA 1 (by decide)

/-- C7 counterexample: an entry with a title but neither guid, id nor
link becomes a persisted article whose fingerprint is the empty string,
refuting "an entry lacking both an identifier and a link does not
become a persisted Item". -/
theorem claim_C7_counterexample :
    (fetch_rss_feeds trFail now0 id (some []) [(Except.ok [entryBare], "S")]).map
      (fun l => l.map fun a => a.fingerprint) = .ok [""] := by
  decide

/-- C8: when neither timestamp field parses (absent/falsy attributes,
or values whose `datetime` construction raises and is swallowed by the
`except ... pass`), the produced article's `pub_date` is the isoformat
of the current UTC wall clock, and no parse failure escapes:
`process_feed_entry` still returns `.ok`. -/
theorem claim_C8 : ∀ (tr : String → ApiOutcome) (now : DateTime)
    (stripHtml : String → String) (src : String) (known : List String)
    (e : RawEntry) (a : Article) (n : Nat),
    (e.published_parsed = .absent ∨ e.published_parsed = .invalid) →
    (e.updated_parsed = .absent ∨ e.updated_parsed = .invalid) →
    process_feed_entry tr now stripHtml src known e = .ok (some a, n) →
    a.pub_date = now.isoformat := by
  intro tr now stripHtml src known e a n hp hu h
  rw [(process_feed_entry_some h).2.2]
  rcases hp with hp | hp <;> rcases hu with hu | hu <;>
    simp [parsePubDate, hp, hu]

/-- C8 witness: the bare entry has no timestamp fields, and its
article is stamped with the run clock `now0`. -/
theorem claim_C8_witness : artBare.pub_date = now0.isoformat :=
  claim_C8 trFail now0 id "S" [] entryBare artBare 1 (Or.inl rfl)
    (Or.inl rfl) (by decide)

/-- C9: a fetch/parse failure of one source raising one of the caught
classes (`requests.RequestException`, `ValueError`, `KeyError`) is
absorbed inside `fetch_single_feed`, which returns the articles
collected so far (`[]` when the parse itself fails), and the whole run
treats that source exactly like a source that returned zero entries —
the other sources are unaffected. -/
theorem claim_C9 : ∀ (tr : String → ApiOutcome) (now : DateTime)
    (stripHtml : String → String) (src : String) (known : List String)
    (existing : Option (List Article)) (feeds1 feeds2 : List FeedResult)
    (ex : PyExc), caughtByFetch ex = true →
    fetch_single_feed tr now stripHtml src known (.error ex) = .ok [] ∧
    fetch_rss_feeds tr now stripHtml existing
        (feeds1 ++ (Except.error ex, src) :: feeds2) =
      fetch_rss_feeds tr now stripHtml existing
        (feeds1 ++ (Except.ok [], src) :: feeds2) := by
  intro tr now stripHtml src known existing feeds1 feeds2 ex hex
  have hsf : ∀ known2 : List String,
      fetch_single_feed tr now stripHtml src known2 (.error ex) = .ok [] := by
    intro known2
    unfold fetch_single_feed
    dsimp only
    rw [if_pos hex]
  refine ⟨hsf known, ?_⟩
  have h2 : ∀ known2 : List String,
      collect_new tr now stripHtml known2 (feeds1 ++ (Except.error ex, src) :: feeds2) =
        collect_new tr now stripHtml known2 (feeds1 ++ (Except.ok [], src) :: feeds2) := by
    intro known2
    induction feeds1 with
    | nil =>
      simp only [List.nil_append, collect_new]
      rw [hsf known2]
      rfl
    | cons q qs ih =>
      obtain ⟨qp, qsrc⟩ := q
      simp only [List.cons_append, collect_new, List.append_eq]
      rw [ih]
  unfold fetch_rss_feeds
  simp only [h2]

/-- C9 witness: with one healthy source after the failing one, the run
equals the run where the failing source yields nothing. -/
theorem claim_C9_witness :
    fetch_single_feed trFail now0 id "S" [] (.error .requestError) = .ok [] ∧
    fetch_rss_feeds trFail now0 id (some [])
        ([] ++ (Except.error PyExc.requestError, "S") ::
          [(Except.ok [entryA], "T")]) =
      fetch_rss_feeds trFail now0 id (some [])
        ([] ++ (Except.ok [], "S") :: [(Except.ok [entryA], "T")]) :=
  claim_C9 trFail now0 id "S" [] (some []) []
    [(Except.ok [entryA], "T")] .requestError rfl

/-- C1 (amended): deduplication is only against the prior persisted
state — every newly ingested article's fingerprint avoids every
fingerprint of the existing state, and the merged state consists solely
of prior articles and such new articles.  The original claim's full
uniqueness is false: the existing-fingerprint set is built once (line
202) and never extended during a run, so two new entries carrying the
same fingerprint in the same run are both ingested (see the
counterexample). -/
theorem claim_C1 : ∀ (tr : String → ApiOutcome) (now : DateTime)
    (stripHtml : String → String) (ex : List Article)
    (feeds : List FeedResult) (new1 r : List Article),
    collect_new tr now stripHtml (fpList ex) feeds = .ok new1 →
    fetch_rss_feeds tr now stripHtml (some ex) feeds = .ok r →
    (∀ a ∈ new1, a.fingerprint ∉ fpList ex) ∧
    ∀ x ∈ r, x ∈ ex ∨ x ∈ new1 := by
  intro tr now stripHtml ex feeds new1 r hc hf
  refine ⟨collect_new_fp_not_known hc, ?_⟩
  rw [fetch_rss_feeds_eq hc] at hf
  replace hf := Except.ok.inj hf
  intro x hx
  rw [← hf] at hx
  have hx2 : x ∈ List.insertionSort pubGe (ex ++ new1) :=
    List.mem_of_mem_take hx
  have hx3 : x ∈ ex ++ new1 :=
    (List.perm_insertionSort pubGe (ex ++ new1)).mem_iff.mp hx2
  exact List.mem_append.mp hx3

/-- C1 witness: one fresh entry against an empty state. -/
theorem claim_C1_witness :
    (∀ a ∈ [artA], a.fingerprint ∉ fpList []) ∧
    ∀ x ∈ [artA], x ∈ ([] : List Article) ∨ x ∈ [artA] :=
  claim_C1 trFail now0 id [] [(Except.ok [entryA], "S")] [artA] [artA]
    (by decide) (by decide)

/-- C1 counterexample: two entries fetched in the same run share guid
`G`; both are ingested and the returned state carries the fingerprint
`G` twice — fingerprints are not unique in the merged state. -/
theorem claim_C1_counterexample :
    (fetch_rss_feeds trFail now0 id (some [])
        [(Except.ok [entryA, entryB], "S")]).map
      (fun l => l.map fun a => a.fingerprint) = .ok ["G", "G"] := by
  decide

/-- C2: the merged state never exceeds 77 articles; the merged state
plus the dropped articles is a permutation of existing-plus-new (so the
dropped articles are exactly the overflow of the combined set); and
every dropped article's `pub_date` key is ≤ every kept article's key in
the sort order the code uses (the raw-string order of line 214) — the
dropped items are the oldest ones of the combined set. -/
theorem claim_C2 : ∀ (tr : String → ApiOutcome) (now : DateTime)
    (stripHtml : String → String) (ex : List Article)
    (feeds : List FeedResult) (new1 r : List Article),
    collect_new tr now stripHtml (fpList ex) feeds = .ok new1 →
    fetch_rss_feeds tr now stripHtml (some ex) feeds = .ok r →
    r.length ≤ 77 ∧
    List.Perm (r ++ (List.insertionSort pubGe (ex ++ new1)).drop 77)
      (ex ++ new1) ∧
    ∀ d ∈ (List.insertionSort pubGe (ex ++ new1)).drop 77, ∀ k ∈ r,
      strLe d.pub_date k.pub_date := by
  intro tr now stripHtml ex feeds new1 r hc hf
  rw [fetch_rss_feeds_eq hc] at hf
  replace hf := Except.ok.inj hf
  subst hf
  refine ⟨List.length_take_le 77 _, ?_, ?_⟩
  · rw [List.take_append_drop]
    exact List.perm_insertionSort pubGe (ex ++ new1)
  · have hs : List.Pairwise pubGe (List.insertionSort pubGe (ex ++ new1)) :=
      List.sorted_insertionSort pubGe (ex ++ new1)
    rw [← List.take_append_drop 77 (List.insertionSort pubGe (ex ++ new1))] at hs
    have hcross := (List.pairwise_append.mp hs).2.2
    intro d hd k hk
    exact hcross k hk d hd

/-- C2 witness: one fresh entry against an empty state, nothing
dropped. -/
theorem claim_C2_witness :
    ([artA] : List Article).length ≤ 77 ∧
    List.Perm ([artA] ++ (List.insertionSort pubGe ([] ++ [artA])).drop 77)
      ([] ++ [artA]) ∧
    ∀ d ∈ (List.insertionSort pubGe ([] ++ [artA])).drop 77, ∀ k ∈ [artA],
      strLe d.pub_date k.pub_date :=
  claim_C2 trFail now0 id [] [(Except.ok [entryA], "S")] [artA] [artA]
    (by decide) (by decide)

/-- C3: the merged state is pairwise non-increasing in the `pub_date`
sort key (`pubGe`, the raw-string descending order of line 214), it is
the 77-prefix of the stable sort of existing-followed-by-new, and any
two articles with identical `pub_date` values that appear in order in
that concatenation appear in the same order in the sorted list —
Python's sort is stable and `reverse=True` does not reverse ties. -/
theorem claim_C3 : ∀ (tr : String → ApiOutcome) (now : DateTime)
    (stripHtml : String → String) (ex : List Article)
    (feeds : List FeedResult) (new1 r : List Article),
    collect_new tr now stripHtml (fpList ex) feeds = .ok new1 →
    fetch_rss_feeds tr now stripHtml (some ex) feeds = .ok r →
    List.Pairwise pubGe r ∧
    r = (List.insertionSort pubGe (ex ++ new1)).take 77 ∧
    ∀ a b : Article, a.pub_date = b.pub_date →
      List.Sublist [a, b] (ex ++ new1) →
      List.Sublist [a, b] (List.insertionSort pubGe (ex ++ new1)) := by
  intro tr now stripHtml ex feeds new1 r hc hf
  rw [fetch_rss_feeds_eq hc] at hf
  replace hf := Except.ok.inj hf
  subst hf
  refine ⟨?_, rfl, ?_⟩
  · exact (List.sorted_insertionSort pubGe (ex ++ new1)).sublist
      (List.take_sublist 77 _)
  · intro a b hab hsub
    have hr : pubGe a b := by
      show charsLe b.pub_date.data a.pub_date.data = true
      rw [hab]
      exact charsLe_refl _
    exact List.pair_sublist_insertionSort hr hsub

/-- C3 witness: a singleton run. -/
theorem claim_C3_witness :
    List.Pairwise pubGe [artA] ∧
    ([artA] : List Article) =
      (List.insertionSort pubGe ([] ++ [artA])).take 77 ∧
    ∀ a b : Article, a.pub_date = b.pub_date →
      List.Sublist [a, b] ([] ++ [artA]) →
      List.Sublist [a, b] (List.insertionSort pubGe ([] ++ [artA])) :=
  claim_C3 trFail now0 id [] [(Except.ok [entryA], "S")] [artA] [artA]
    (by decide) (by decide)

/-- C10: (1) the merge step is literally "stable-sort by the raw
`pub_date` string, descending, then truncate" — `pubGe` compares the
stored strings code point by code point, exactly as Python compares
`str` keys, with no timestamp parsing; (2) every article built by
`process_feed_entry` stores `pub_date` as `isoformat` of a UTC
datetime, a string carrying the explicit `+00:00` offset; (3) for all
datetimes in `datetime`'s ranges — with or without the `.ffffff`
fractional part that the `datetime.now` fallback stamps — the
lexicographic order of the isoformat strings coincides with
chronological order, so the string sort is a chronological sort on any
list of such `pub_date` values. -/
theorem claim_C10 :
    (∀ (tr : String → ApiOutcome) (now : DateTime)
      (stripHtml : String → String) (ex : List Article)
      (feeds : List FeedResult) (new1 : List Article),
      collect_new tr now stripHtml (fpList ex) feeds = .ok new1 →
      fetch_rss_feeds tr now stripHtml (some ex) feeds =
        .ok ((List.insertionSort pubGe (ex ++ new1)).take 77)) ∧
    (∀ (tr : String → ApiOutcome) (now : DateTime)
      (stripHtml : String → String) (src : String) (known : List String)
      (e : RawEntry) (a : Article) (n : Nat),
      process_feed_entry tr now stripHtml src known e = .ok (some a, n) →
      ∃ dt : DateTime, a.pub_date = dt.isoformat) ∧
    (∀ d1 d2 : DateTime, d1.InRange → d2.InRange →
      (strLe d1.isoformat d2.isoformat ↔ d1.chronoLe d2)) := by
  refine ⟨?_, ?_, ?_⟩
  · intro tr now stripHtml ex feeds new1 hc
    exact fetch_rss_feeds_eq hc
  · intro tr now stripHtml src known e a n h
    exact ⟨_, (process_feed_entry_some h).2.2⟩
  · intro d1 d2 h1 h2
    exact isoChars_le_iff h1 h2

/-- C10 witness: the singleton run, the shape of `artA.pub_date`, and
the order coincidence at two concrete datetimes within the same second,
one microsecond-free and one carrying a `.500000` fractional part. -/
theorem claim_C10_witness :
    (fetch_rss_feeds trFail now0 id (some []) [(Except.ok [entryA], "S")] =
      .ok ((List.insertionSort pubGe ([] ++ [artA])).take 77)) ∧
    (∃ dt : DateTime, artA.pub_date = dt.isoformat) ∧
    (strLe (DateTime.mk 2025 1 2 0 0 0 0).isoformat
        (DateTime.mk 2025 1 2 0 0 0 500000).isoformat ↔
      (DateTime.mk 2025 1 2 0 0 0 0).chronoLe
        (DateTime.mk 2025 1 2 0 0 0 500000)) :=
  ⟨claim_C10.1 trFail now0 id [] [(Except.ok [entryA], "S")] [artA] (by decide),
    claim_C10.2.1 trFail now0 id "S" [] entryA artA 1 (by decide),
    claim_C10.2.2 (DateTime.mk 2025 1 2 0 0 0 0)
      (DateTime.mk 2025 1 2 0 0 0 500000) (by decide) (by decide)⟩

/-- C4 (amended): when the first run's merge drops nothing
(`len(existing) + len(new) ≤ 77`), a second run over the same upstream
parse results — under any translator and any wall clock — ingests zero
new items (so nothing is re-translated) and returns the persisted state
unchanged.  Without that proviso the claim is false: a fingerprint
dropped by truncation but still present in the feed is re-ingested on
the next run and can displace other items (see the counterexample). -/
theorem claim_C4 : ∀ (tr1 tr2 : String → ApiOutcome) (now1 now2 : DateTime)
    (stripHtml : String → String) (ex : List Article)
    (feeds : List FeedResult) (new1 s1 : List Article),
    collect_new tr1 now1 stripHtml (fpList ex) feeds = .ok new1 →
    ex.length + new1.length ≤ 77 →
    fetch_rss_feeds tr1 now1 stripHtml (some ex) feeds = .ok s1 →
    collect_new tr2 now2 stripHtml (fpList s1) feeds = .ok [] ∧
    fetch_rss_feeds tr2 now2 stripHtml (some s1) feeds = .ok s1 := by
  intro tr1 tr2 now1 now2 stripHtml ex feeds new1 s1 hc hlen hf
  rw [fetch_rss_feeds_eq hc] at hf
  replace hf := Except.ok.inj hf
  have hslen : (List.insertionSort pubGe (ex ++ new1)).length =
      ex.length + new1.length := by
    rw [List.length_insertionSort, List.length_append]
  have hfull : (List.insertionSort pubGe (ex ++ new1)).take 77 =
      List.insertionSort pubGe (ex ++ new1) :=
    List.take_of_length_le (by omega)
  have hs1 : s1 = List.insertionSort pubGe (ex ++ new1) := by
    rw [← hf, hfull]
  have hmem : ∀ x ∈ ex ++ new1, x ∈ s1 := by
    intro x hx
    rw [hs1]
    exact (List.perm_insertionSort pubGe (ex ++ new1)).mem_iff.mpr hx
  have hnone : collect_new tr2 now2 stripHtml (fpList s1) feeds = .ok [] := by
    apply collect_new_none
    · exact collect_new_err_caught hc
    · intro p hp entries hent e he
      rcases collect_new_covers hc p hp entries hent e he with ht | hm | hin
      · exact Or.inl ht
      · refine Or.inr ?_
        rcases List.mem_map.mp hm with ⟨a2, ha2, hfp⟩
        exact List.mem_map.mpr ⟨a2, hmem a2 (List.mem_append_left _ ha2), hfp⟩
      · refine Or.inr ?_
        rcases List.mem_map.mp hin with ⟨a2, ha2, hfp⟩
        exact List.mem_map.mpr ⟨a2, hmem a2 (List.mem_append_right _ ha2), hfp⟩
  refine ⟨hnone, ?_⟩
  rw [fetch_rss_feeds_eq hnone, List.append_nil]
  have hsorted : List.Pairwise pubGe s1 := by
    rw [hs1]
    exact List.sorted_insertionSort pubGe (ex ++ new1)
  rw [List.Sorted.insertionSort_eq hsorted]
  rw [List.take_of_length_le (by rw [hs1, hslen]; omega)]

/-- C4 witness: a run that drops nothing is followed by a run (under a
different, always-raising translator and a different clock) that
ingests nothing and leaves the state untouched. -/
theorem claim_C4_witness :
    collect_new trBoom ⟨2025, 1, 11, 0, 0, 0, 0⟩ id (fpList [artA])
        [(Except.ok [entryA], "S")] = .ok [] ∧
    fetch_rss_feeds trBoom ⟨2025, 1, 11, 0, 0, 0, 0⟩ id (some [artA])
        [(Except.ok [entryA], "S")] = .ok [artA] :=
  claim_C4 trFail trBoom now0 ⟨2025, 1, 11, 0, 0, 0, 0⟩ id []
    [(Except.ok [entryA], "S")] [artA] [artA] (by decide) (by decide)
    (by decide)

/-- C4 counterexample: `state0` holds 77 articles, the oldest carrying
fingerprint `G`, and the feed still serves `G` (republished newer)
plus a fresh `H`.  Run 1 skips `G` (known), ingests `H`, and truncation
drops the old `G` article.  Run 2, over identical upstream data and the
same wall clock, no longer knows `G`, re-ingests it as the newest item,
and truncates `H` away: the persisted state changes — the pipeline is
not idempotent. -/
theorem claim_C4_counterexample :
    fetch_rss_feeds trFail now0 id (some state0) feedsC4 = .ok state1 ∧
    fetch_rss_feeds trFail now0 id (some state1) feedsC4 = .ok state2 ∧
    state1 ≠ state2 := by
  refine ⟨by decide, by decide, by decide⟩
